import Mathlib

/-!
Verification of the PEA (parametrized expectations algorithm) notebook.

This file is a shallow embedding of the numerically substantive code of
PEA_ncgm.ipynb: the Hermite basis construction (hermterms, hermpoly), the
residual sum of squares objective (rss), the exogenous shock process, the
policy-path simulation and regression-sample construction of the main loop,
and the damped fixed-point update with its convergence test.  Machine floats
are modelled by real numbers; array cells that a run never writes keep their
zero initialisation; an out-of-range numpy column assignment is modelled by
an Option-valued function returning none.
-/

namespace PEA

noncomputable section

open Real

/-- Entry j of the row that hermterms builds: hx[:,0] = 1 (from np.ones),
hx[:,1] = x, and the loop body sets hx[:,j] = x * hx[:,j-1] - j * hx[:,j-2]
for j = 2, ..., porder.  Note the code multiplies by the new index j itself. -/
def hermval (x : ℝ) : ℕ → ℝ
  | 0 => 1
  | 1 => x
  | n + 2 => x * hermval x (n + 1) - ((n + 2 : ℕ) : ℝ) * hermval x n

/-- hermterms porder x.  The code allocates a row of porder+1 ones and then
unconditionally assigns column 1 (hx[:,1] = x), so a call with porder = 0
fails with an index error, modelled as none; for porder at least 1 the call
returns the row of hermval values, of length porder+1. -/
def hermterms (porder : ℕ) (x : ℝ) : Option (List ℝ) :=
  if porder = 0 then none
  else some (List.ofFn fun j : Fin (porder + 1) => hermval x j.val)

/-- The Hermite recurrence exactly as stated in the notebook markdown and in
the spec: H0 = 1, H1 = x, H(j+1) = x * H(j) - j * H(j-1).  This is the
spec-side reference against which hermval is compared. -/
def hermSpecVal (x : ℝ) : ℕ → ℝ
  | 0 => 1
  | 1 => x
  | n + 2 => x * hermSpecVal x (n + 1) - ((n + 1 : ℕ) : ℝ) * hermSpecVal x n

/-- hermpoly at a single point (lk, lz): first hermterms is called on each
coordinate (failing if an order is 0), then the code fills a row of
(porder_k + 1) * (porder_z + 1) columns by polymat[:, jk*(porder_z+1)+jz] =
hk[:,jk] * hz[:,jz]; equivalently column m holds the product of the hermval
values at indices m / (porder_z + 1) and m % (porder_z + 1). -/
def hermpolyRow (pk pz : ℕ) (lk lz : ℝ) : Option (List ℝ) :=
  match hermterms pk lk, hermterms pz lz with
  | some _, some _ =>
      some (List.ofFn fun m : Fin ((pk + 1) * (pz + 1)) =>
        hermval lk (m.val / (pz + 1)) * hermval lz (m.val % (pz + 1)))
  | _, _ => none

/-- Dot product of the first n entries of two real sequences (np.dot). -/
def dotv (n : ℕ) (v w : ℕ → ℝ) : ℝ := ∑ j in Finset.range n, v j * w j

/-- rss coef Y X with m rows and ncols regressors: the code forms the
residual vector r = Y - exp(X.coef) and returns np.dot(r.T, r). -/
def rss (ncols m : ℕ) (coef Y : ℕ → ℝ) (X : ℕ → ℕ → ℝ) : ℝ :=
  dotv m (fun i => Y i - Real.exp (dotv ncols (X i) coef))
    (fun i => Y i - Real.exp (dotv ncols (X i) coef))

/-- Log-productivity process: lnz[0] = 0 and, for t from 1,
lnz[t] = rho * lnz[t-1] + epsi[t]; productivity itself is exp of this. -/
def lnzSeq (rho : ℝ) (epsi : ℕ → ℝ) : ℕ → ℝ
  | 0 => 0
  | t + 1 => rho * lnzSeq rho epsi t + epsi (t + 1)

/-- Scalar model parameters used by the simulated trajectory. -/
structure Params where
  alpha : ℝ
  beta : ℝ
  nu : ℝ
  delta : ℝ

/-- Deterministic steady-state capital, computed once in closed form:
k_ss = ((1 - beta + delta*beta) / (alpha*beta)) ^ (1/(alpha-1)). -/
def kss (p : Params) : ℝ :=
  ((1 - p.beta + p.delta * p.beta) / (p.alpha * p.beta)) ^ (1 / (p.alpha - 1))

/-- np.dot(hermpoly([pk, pz], [[lk, lz]]), psi): the sum over columns
jk*(pz+1)+jz of hk[jk] * hz[jz] * psi[jk*(pz+1)+jz].  For orders at least 1
this is the dot of the hermpolyRow row with psi; the order-0 index error of
hermterms is modelled on hermterms and hermpolyRow themselves. -/
def polyDot (pk pz : ℕ) (lk lz : ℝ) (psi : ℕ → ℝ) : ℝ :=
  ∑ jk in Finset.range (pk + 1), ∑ jz in Finset.range (pz + 1),
    hermval lk jk * hermval lz jz * psi (jk * (pz + 1) + jz)

/-- One outer-iteration trajectory, as the pair (c t, k t).  The arrays are
zero-initialised and index 0 of c is never assigned, so c 0 = 0; k 0 = k_ss;
and the loop for t = 1, ..., T-1 sets lnk[t-1] = log k[t-1],
c[t] = exp(-(hermpoly row at (lnk[t-1], lnz[t-1])).psi / nu) and
k[t] = z[t] * k[t-1]^alpha + (1 - delta) * k[t-1] - c[t], with
z[t] = exp(lnz[t]). -/
def traj (p : Params) (pk pz : ℕ) (psi lnz : ℕ → ℝ) : ℕ → ℝ × ℝ
  | 0 => (0, kss p)
  | t + 1 =>
    let kt := (traj p pk pz psi lnz t).2
    let ct := Real.exp (-polyDot pk pz (Real.log kt) (lnz t) psi / p.nu)
    (ct, Real.exp (lnz (t + 1)) * kt ^ p.alpha + (1 - p.delta) * kt - ct)

/-- Consumption series of the simulated trajectory. -/
def cSim (p : Params) (pk pz : ℕ) (psi lnz : ℕ → ℝ) (t : ℕ) : ℝ :=
  (traj p pk pz psi lnz t).1

/-- Capital series of the simulated trajectory. -/
def kSim (p : Params) (pk pz : ℕ) (psi lnz : ℕ → ℝ) (t : ℕ) : ℝ :=
  (traj p pk pz psi lnz t).2

/-- Row j of the regression target
Y = beta * c[T1:T]^(-nu) * (alpha * z[T1:T] * k[T1-1:T-1]^(alpha-1) + 1 - delta),
so row j (for j < T - T1) reads c and z at T1+j and k at T1-1+j. -/
def Yreg (p : Params) (pk pz T1 : ℕ) (psi lnz : ℕ → ℝ) (j : ℕ) : ℝ :=
  p.beta * cSim p pk pz psi lnz (T1 + j) ^ (-p.nu) *
    (p.alpha * Real.exp (lnz (T1 + j)) *
      kSim p pk pz psi lnz (T1 - 1 + j) ^ (p.alpha - 1) + 1 - p.delta)

/-- Row j of the design matrix X = hermpoly at the stacked points
(lnk[T1-2:T-2], lnz[T1-1:T-1]), so row j reads log k at T1-2+j and lnz at
T1-1+j (every lnk cell the slice touches was set to log of the k cell). -/
def Xreg (p : Params) (pk pz T1 : ℕ) (psi lnz : ℕ → ℝ) (j : ℕ) : Option (List ℝ) :=
  hermpolyRow pk pz (Real.log (kSim p pk pz psi lnz (T1 - 2 + j))) (lnz (T1 - 1 + j))

/-- Euclidean norm of the first n entries of a sequence (np.linalg.norm). -/
def enorm (n : ℕ) (v : ℕ → ℝ) : ℝ := Real.sqrt (∑ j in Finset.range n, v j ^ 2)

/-- One pass of the outer loop after the fit, with the whole
simulate-regress-minimize pipeline abstracted as a function fit of the
current psi (the shock path is fixed, so psi determines psi_out): the code
computes delpsi = norm(psi - psi_out), breaks if delpsi < psitol leaving psi
unchanged, and otherwise sets psi = lrate * psi_out + (1 - lrate) * psi.
The Bool records whether the pass hit the break. -/
def psiStep (n : ℕ) (fit : (ℕ → ℝ) → ℕ → ℝ) (lrate psitol : ℝ) (psi : ℕ → ℝ) :
    (ℕ → ℝ) × Bool :=
  if enorm n (fun j => psi j - fit psi j) < psitol then (psi, true)
  else (fun j => lrate * fit psi j + (1 - lrate) * psi j, false)

/-- The outer loop, for psiter in range(maxiter): run a pass; stop at the
break, else continue with the damped update; when the iteration budget runs
out the last psi is reported with the flag false. -/
def psiLoop (n : ℕ) (fit : (ℕ → ℝ) → ℕ → ℝ) (lrate psitol : ℝ) :
    ℕ → (ℕ → ℝ) → (ℕ → ℝ) × Bool
  | 0, psi => (psi, false)
  | m + 1, psi =>
    let s := psiStep n fit lrate psitol psi
    if s.2 then s else psiLoop n fit lrate psitol m s.1

/-- Concrete parameter record used for evaluations: alpha = 2, beta = 1/2,
nu = 1, delta = 1 (chosen so that k_ss = 1 and all transcendentals reduce). -/
def pEx : Params := ⟨2, 1 / 2, 1, 1⟩

/-- The zero coefficient vector. -/
def psiZ : ℕ → ℝ := fun _ => 0

/-- The identically-zero log-productivity path (zero noise). -/
def lnzZ : ℕ → ℝ := fun _ => 0

/-- A concrete constant fitter used for evaluations: every call returns the
coefficient vector with all entries 1/2. -/
def cfit : (ℕ → ℝ) → ℕ → ℝ := fun _ _ => 1 / 2

end

end PEA

namespace PEA

section Theorems

open Real

/-- The row list built by hermterms has length porder + 1. -/
theorem hermterms_length (porder : ℕ) (x : ℝ) :
    (List.ofFn fun j : Fin (porder + 1) => hermval x j.val).length = porder + 1 := by
  simp

/-- C1: the code contradicts the documented Hermite recurrence.  The loop
body multiplies by the new index j instead of j - 1, so at order 2 the code
row entry at x = 0 is -2 while the recurrence stated in the notebook markdown
(and the alternating pattern 1, 0, -1, ... claimed at x = 0) gives -1; the
full code row at order 2, x = 0 is [1, 0, -2]. -/
theorem hermterms_order2_bug :
    hermval 0 2 = -2 ∧ hermSpecVal 0 2 = -1 ∧
      hermterms 2 0 = some [1, 0, -2] := by
  refine ⟨by norm_num [hermval], by norm_num [hermSpecVal], ?_⟩
  rw [hermterms, if_neg (by norm_num)]
  norm_num [List.ofFn_succ, hermval]

/-- C2 counterexample: a call with order 0 does not return the singleton
row [1]; it fails (index error on the assignment hx[:,1] = x). -/
theorem hermterms_order0_fails : hermterms 0 (0 : ℝ) = none := rfl

/-- C2 (amended): hermterms is total on orders at least 1: it returns the
row of hermval values of length porder + 1, whose first two entries are 1
and x; in particular at order 1 the row is exactly [1, x].  Order 0 is not
supported: the unconditional assignment of column 1 raises an index error. -/
theorem hermterms_total_from_order_one (porder : ℕ) (x : ℝ) (h : 1 ≤ porder) :
    hermterms porder x = some (List.ofFn fun j : Fin (porder + 1) => hermval x j.val) ∧
      (List.ofFn fun j : Fin (porder + 1) => hermval x j.val).length = porder + 1 ∧
      hermval x 0 = 1 ∧ hermval x 1 = x ∧
      hermterms 1 x = some [1, x] := by
  refine ⟨by rw [hermterms, if_neg (by omega)], by simp, rfl, rfl, ?_⟩
  rw [hermterms, if_neg (by norm_num)]
  norm_num [List.ofFn_succ, hermval]

/-- C2 witness at order 1, x = 37. -/
theorem hermterms_total_from_order_one_witness :
    1 ≤ 1 ∧
      (hermterms 1 (37 : ℝ) = some (List.ofFn fun j : Fin 2 => hermval 37 j.val) ∧
        (List.ofFn fun j : Fin 2 => hermval (37 : ℝ) j.val).length = 2 ∧
        hermval (37 : ℝ) 0 = 1 ∧ hermval (37 : ℝ) 1 = 37 ∧
        hermterms 1 (37 : ℝ) = some [1, 37]) :=
  ⟨le_refl 1, hermterms_total_from_order_one 1 37 (le_refl 1)⟩

/-- C7 counterexample: with a zero order in either coordinate, hermpoly does
not return a row of (ok+1)(oz+1) columns; it fails, because hermterms fails
at order 0. -/
theorem hermpolyRow_order0_fails : hermpolyRow 0 1 (0 : ℝ) (0 : ℝ) = none := rfl

/-- C7 (amended): for orders at least 1 in each coordinate, hermpoly returns
exactly (ok+1)(oz+1) columns, and the column at position jk*(oz+1)+jz is the
product of row entry jk of hermterms at the k-state and row entry jz of
hermterms at the z-state: the outer product flattened k-index major, z-index
minor.  The function is pure, hence stable across calls.  Order 0 in either
coordinate instead fails with the hermterms index error. -/
theorem hermpolyRow_tensor (pk pz : ℕ) (lk lz : ℝ) (hpk : 1 ≤ pk) (hpz : 1 ≤ pz) :
    ∃ row : List ℝ, hermpolyRow pk pz lk lz = some row ∧
      row.length = (pk + 1) * (pz + 1) ∧
      ∀ jk jz : ℕ, jk ≤ pk → jz ≤ pz →
        row.getD (jk * (pz + 1) + jz) 0 = hermval lk jk * hermval lz jz := by
  refine ⟨List.ofFn fun m : Fin ((pk + 1) * (pz + 1)) =>
      hermval lk (m.val / (pz + 1)) * hermval lz (m.val % (pz + 1)), ?_,
      by simp only [List.length_ofFn], ?_⟩
  · rw [hermpolyRow]
    rw [hermterms, if_neg (by omega), hermterms, if_neg (by omega)]
  · intro jk jz hjk hjz
    have hlt : jk * (pz + 1) + jz < (pk + 1) * (pz + 1) := by
      calc jk * (pz + 1) + jz < jk * (pz + 1) + (pz + 1) := by omega
        _ = (jk + 1) * (pz + 1) := by ring
        _ ≤ (pk + 1) * (pz + 1) := Nat.mul_le_mul_right _ (by omega)
    have hdiv : (jk * (pz + 1) + jz) / (pz + 1) = jk := by
      rw [Nat.add_comm, Nat.add_mul_div_right _ _ (Nat.succ_pos pz),
        Nat.div_eq_of_lt (by omega)]
      omega
    have hmod : (jk * (pz + 1) + jz) % (pz + 1) = jz := by
      rw [Nat.add_comm, Nat.add_mul_mod_self_right, Nat.mod_eq_of_lt (by omega)]
    rw [List.getD_eq_getElem?_getD, List.getElem?_ofFn]
    simp [List.ofFnNthVal, hlt, hdiv, hmod]

/-- C7 witness at orders (1,1). -/
theorem hermpolyRow_tensor_witness :
    (1 ≤ 1 ∧ 1 ≤ 1) ∧
      ∃ row : List ℝ, hermpolyRow 1 1 (5 : ℝ) (7 : ℝ) = some row ∧
        row.length = 2 * 2 ∧
        ∀ jk jz : ℕ, jk ≤ 1 → jz ≤ 1 →
          row.getD (jk * 2 + jz) 0 = hermval 5 jk * hermval 7 jz :=
  ⟨⟨le_refl 1, le_refl 1⟩, hermpolyRow_tensor 1 1 5 7 (le_refl 1) (le_refl 1)⟩

/-- C8: the rss objective equals, for every coefficient vector, target
vector and design matrix of matching row count, the sum over rows of
(Y - exp(X.coef))^2. -/
theorem rss_eq_sum_sq (ncols m : ℕ) (coef Y : ℕ → ℝ) (X : ℕ → ℕ → ℝ) :
    rss ncols m coef Y X =
      ∑ i in Finset.range m,
        (Y i - Real.exp (∑ j in Finset.range ncols, X i j * coef j)) ^ 2 := by
  unfold rss dotv
  exact Finset.sum_congr rfl fun i _ => (pow_two _).symm

/-- C10: the shock path never reads the first noise draw.  If two noise
sequences agree at every index from 1 up to T-1 then the log-productivity
and productivity sequences they produce agree at every index below T,
because lnz[0] is pinned to 0 and the recurrence reads epsi[t] only for
t at least 1. -/
theorem lnz_ignores_first_draw (rho : ℝ) (epsi epsi2 : ℕ → ℝ) (T t : ℕ)
    (h : ∀ s, 1 ≤ s → s < T → epsi s = epsi2 s) (ht : t < T) :
    lnzSeq rho epsi t = lnzSeq rho epsi2 t ∧
      Real.exp (lnzSeq rho epsi t) = Real.exp (lnzSeq rho epsi2 t) := by
  have main : ∀ u, u < T → lnzSeq rho epsi u = lnzSeq rho epsi2 u := by
    intro u
    induction u with
    | zero => intro _; rfl
    | succ v ih =>
      intro hu
      have hv := ih (by omega)
      simp only [lnzSeq, hv, h (v + 1) (by omega) hu]
  exact ⟨main t ht, by rw [main t ht]⟩

/-- C10 witness: two noise paths differing only in the first draw, T = 3,
checked at t = 2. -/
theorem lnz_ignores_first_draw_witness :
    (∀ s, 1 ≤ s → s < 3 →
        (fun u => if u = 0 then (5 : ℝ) else 0) s = (fun _ => (0 : ℝ)) s) ∧
      2 < 3 ∧
      (lnzSeq 1 (fun u => if u = 0 then (5 : ℝ) else 0) 2 = lnzSeq 1 (fun _ => 0) 2 ∧
        Real.exp (lnzSeq 1 (fun u => if u = 0 then (5 : ℝ) else 0) 2) =
          Real.exp (lnzSeq 1 (fun _ => 0) 2)) := by
  have h : ∀ s, 1 ≤ s → s < 3 →
      (fun u => if u = 0 then (5 : ℝ) else 0) s = (fun _ => (0 : ℝ)) s := by
    intro s h1 h3
    show (if s = 0 then (5 : ℝ) else 0) = 0
    rw [if_neg (by omega)]
  exact ⟨h, by omega, lnz_ignores_first_draw 1 _ _ 3 2 h (by omega)⟩

/-- C9: consumption at index 0 is never computed: the time loop starts at
t = 1 and c[0] keeps its zero initialisation, for every parameter record,
basis orders, coefficient vector and shock path. -/
theorem consumption_index_zero (p : Params) (pk pz : ℕ) (psi lnz : ℕ → ℝ) :
    cSim p pk pz psi lnz 0 = 0 := rfl

/-- C6: the simulated trajectory starts at the closed-form steady-state
capital ((1-beta+delta*beta)/(alpha*beta))^(1/(alpha-1)), and for every
t at least 1 satisfies c[t] = exp(-(basis at (log k[t-1], lnz[t-1])).psi/nu)
and k[t] = z[t]*k[t-1]^alpha + (1-delta)*k[t-1] - c[t].  Stated for basis
orders at least 1, the domain on which the basis evaluation succeeds. -/
theorem traj_invariant (p : Params) (pk pz : ℕ) (psi lnz : ℕ → ℝ) (t : ℕ)
    (hpk : 1 ≤ pk) (hpz : 1 ≤ pz) :
    kSim p pk pz psi lnz 0 =
      ((1 - p.beta + p.delta * p.beta) / (p.alpha * p.beta)) ^ (1 / (p.alpha - 1)) ∧
      cSim p pk pz psi lnz (t + 1) =
        Real.exp (-polyDot pk pz (Real.log (kSim p pk pz psi lnz t)) (lnz t) psi
          / p.nu) ∧
      kSim p pk pz psi lnz (t + 1) =
        Real.exp (lnz (t + 1)) * kSim p pk pz psi lnz t ^ p.alpha +
          (1 - p.delta) * kSim p pk pz psi lnz t - cSim p pk pz psi lnz (t + 1) := by
  refine ⟨rfl, rfl, ?_⟩
  simp only [cSim, kSim, traj]

/-- C6 witness at the concrete parameter record, orders (1,1), zero psi and
zero shock path, t = 0. -/
theorem traj_invariant_witness :
    (1 ≤ 1 ∧ 1 ≤ 1) ∧
      (kSim pEx 1 1 psiZ lnzZ 0 =
          ((1 - pEx.beta + pEx.delta * pEx.beta) / (pEx.alpha * pEx.beta)) ^
            (1 / (pEx.alpha - 1)) ∧
        cSim pEx 1 1 psiZ lnzZ 1 =
          Real.exp (-polyDot 1 1 (Real.log (kSim pEx 1 1 psiZ lnzZ 0)) (lnzZ 0) psiZ
            / pEx.nu) ∧
        kSim pEx 1 1 psiZ lnzZ 1 =
          Real.exp (lnzZ 1) * kSim pEx 1 1 psiZ lnzZ 0 ^ pEx.alpha +
            (1 - pEx.delta) * kSim pEx 1 1 psiZ lnzZ 0 - cSim pEx 1 1 psiZ lnzZ 1) :=
  ⟨⟨le_refl 1, le_refl 1⟩, traj_invariant pEx 1 1 psiZ lnzZ 0 (le_refl 1) (le_refl 1)⟩

/-- C5: for every row index i of the post-burn-in window (T1 - 1 <= i and
i + 1 <= T - 1, with burn-in T1 at least 2), the regression target row for i
equals beta * c[i+1]^(-nu) * (alpha * z[i+1] * k[i]^(alpha-1) + 1 - delta)
and the design-matrix row for i is the tensor basis evaluated at
(log k[i-1], lnz[i]): the regressors are lagged one step further than the
target. -/
theorem regression_alignment (p : Params) (pk pz T1 T i : ℕ) (psi lnz : ℕ → ℝ)
    (hT1 : 2 ≤ T1) (hi1 : T1 - 1 ≤ i) (hi2 : i + 1 ≤ T - 1) :
    Yreg p pk pz T1 psi lnz (i - (T1 - 1)) =
      p.beta * cSim p pk pz psi lnz (i + 1) ^ (-p.nu) *
        (p.alpha * Real.exp (lnz (i + 1)) *
          kSim p pk pz psi lnz i ^ (p.alpha - 1) + 1 - p.delta) ∧
      Xreg p pk pz T1 psi lnz (i - (T1 - 1)) =
        hermpolyRow pk pz (Real.log (kSim p pk pz psi lnz (i - 1))) (lnz i) := by
  have h1 : T1 + (i - (T1 - 1)) = i + 1 := by omega
  have h2 : T1 - 1 + (i - (T1 - 1)) = i := by omega
  have h3 : T1 - 2 + (i - (T1 - 1)) = i - 1 := by omega
  constructor
  · rw [Yreg, h1, h2]
  · rw [Xreg, h3, h2]

/-- C5 witness at T1 = 2, T = 10, i = 1. -/
theorem regression_alignment_witness :
    (2 ≤ 2 ∧ 2 - 1 ≤ 1 ∧ 1 + 1 ≤ 10 - 1) ∧
      (Yreg pEx 1 1 2 psiZ lnzZ (1 - (2 - 1)) =
          pEx.beta * cSim pEx 1 1 psiZ lnzZ (1 + 1) ^ (-pEx.nu) *
            (pEx.alpha * Real.exp (lnzZ (1 + 1)) *
              kSim pEx 1 1 psiZ lnzZ 1 ^ (pEx.alpha - 1) + 1 - pEx.delta) ∧
        Xreg pEx 1 1 2 psiZ lnzZ (1 - (2 - 1)) =
          hermpolyRow 1 1 (Real.log (kSim pEx 1 1 psiZ lnzZ (1 - 1))) (lnzZ 1)) :=
  ⟨⟨le_refl 2, by omega, by omega⟩,
    regression_alignment pEx 1 1 2 10 1 psiZ lnzZ (le_refl 2) (by omega) (by omega)⟩

/-- The coefficients all zero make every basis dot product vanish. -/
theorem polyDot_psiZ (pk pz : ℕ) (lk lz : ℝ) : polyDot pk pz lk lz psiZ = 0 := by
  simp [polyDot, psiZ]

/-- At the concrete parameter record the steady-state capital is 1. -/
theorem kss_pEx : kss pEx = 1 := by
  have h : kss pEx = ((1 : ℝ) / 1) ^ ((1 : ℝ) / 1) := by
    rw [kss]
    norm_num [pEx]
  rw [h]
  norm_num [Real.one_rpow]

/-- Start of the concrete trajectory: c 0 = 0 and k 0 = 1. -/
theorem traj_pEx_zero : traj pEx 1 1 psiZ lnzZ 0 = (0, 1) := by
  rw [show traj pEx 1 1 psiZ lnzZ 0 = (0, kss pEx) from rfl, kss_pEx]

/-- First step of the concrete trajectory: c 1 = 1 and k 1 = 0; capital is
already nonpositive here. -/
theorem traj_pEx_one : traj pEx 1 1 psiZ lnzZ 1 = (1, 0) := by
  have h0 : traj pEx 1 1 psiZ lnzZ 0 = (0, 1) := traj_pEx_zero
  show (let kt := (traj pEx 1 1 psiZ lnzZ 0).2;
    let ct := Real.exp (-polyDot 1 1 (Real.log kt) (lnzZ 0) psiZ / pEx.nu);
    (ct, Real.exp (lnzZ 1) * kt ^ pEx.alpha + (1 - pEx.delta) * kt - ct)) = (1, 0)
  rw [h0]
  simp only [polyDot_psiZ, lnzZ, pEx]
  norm_num [Real.exp_zero, Real.one_rpow]

/-- Second step of the concrete trajectory: the simulation keeps computing
past the nonpositive capital, giving c 2 = 1 and k 2 = -1. -/
theorem traj_pEx_two : traj pEx 1 1 psiZ lnzZ 2 = (1, -1) := by
  have h1 : traj pEx 1 1 psiZ lnzZ 1 = (1, 0) := traj_pEx_one
  show (let kt := (traj pEx 1 1 psiZ lnzZ 1).2;
    let ct := Real.exp (-polyDot 1 1 (Real.log kt) (lnzZ 1) psiZ / pEx.nu);
    (ct, Real.exp (lnzZ 2) * kt ^ pEx.alpha + (1 - pEx.delta) * kt - ct)) = (1, -1)
  rw [h1]
  simp only [polyDot_psiZ, lnzZ, pEx]
  norm_num [Real.exp_zero, Real.zero_rpow]

/-- C4 counterexample: a concrete coefficient vector whose simulated path
has capital 0 at t = 1, yet no failure of any kind is raised: the
simulation keeps applying the recurrences (capital -1 and consumption 1 at
t = 2) and the regression target row is still built from the series (row 0
with burn-in 2 has value 0).  There is no DIVERGED outcome in the code. -/
theorem no_divergence_failure :
    kSim pEx 1 1 psiZ lnzZ 1 = 0 ∧ kSim pEx 1 1 psiZ lnzZ 2 = -1 ∧
      cSim pEx 1 1 psiZ lnzZ 2 = 1 ∧ Yreg pEx 1 1 2 psiZ lnzZ 0 = 0 := by
  have h1 : kSim pEx 1 1 psiZ lnzZ 1 = 0 := by
    show (traj pEx 1 1 psiZ lnzZ 1).2 = 0
    rw [traj_pEx_one]
  have h2 : kSim pEx 1 1 psiZ lnzZ 2 = -1 := by
    show (traj pEx 1 1 psiZ lnzZ 2).2 = -1
    rw [traj_pEx_two]
  have h3 : cSim pEx 1 1 psiZ lnzZ 2 = 1 := by
    show (traj pEx 1 1 psiZ lnzZ 2).1 = 1
    rw [traj_pEx_two]
  refine ⟨h1, h2, h3, ?_⟩
  have e1 : (2 + 0 : ℕ) = 2 := rfl
  have e2 : (2 - 1 + 0 : ℕ) = 1 := rfl
  rw [Yreg, e1, e2, h3, h1]
  rw [show pEx.alpha - 1 = (1 : ℝ) from by norm_num [pEx]]
  rw [Real.one_rpow, Real.zero_rpow one_ne_zero]
  norm_num [pEx]

/-- C4 (amended): the code performs no divergence check.  Even when capital
at time t is nonpositive, the simulation applies the same recurrences at
t + 1, producing consumption and capital values as usual, and the
regression is subsequently built from the resulting series; no DIVERGED
state or failing index exists. -/
theorem simulation_continues_past_bad_capital
    (p : Params) (pk pz : ℕ) (psi lnz : ℕ → ℝ) (t : ℕ)
    (hbad : kSim p pk pz psi lnz t ≤ 0) :
    cSim p pk pz psi lnz (t + 1) =
      Real.exp (-polyDot pk pz (Real.log (kSim p pk pz psi lnz t)) (lnz t) psi
        / p.nu) ∧
      kSim p pk pz psi lnz (t + 1) =
        Real.exp (lnz (t + 1)) * kSim p pk pz psi lnz t ^ p.alpha +
          (1 - p.delta) * kSim p pk pz psi lnz t - cSim p pk pz psi lnz (t + 1) := by
  refine ⟨rfl, ?_⟩
  simp only [cSim, kSim, traj]

/-- C4 witness at the concrete diverging input, t = 1 (where capital is 0). -/
theorem simulation_continues_past_bad_capital_witness :
    kSim pEx 1 1 psiZ lnzZ 1 ≤ 0 ∧
      (cSim pEx 1 1 psiZ lnzZ 2 =
          Real.exp (-polyDot 1 1 (Real.log (kSim pEx 1 1 psiZ lnzZ 1)) (lnzZ 1) psiZ
            / pEx.nu) ∧
        kSim pEx 1 1 psiZ lnzZ 2 =
          Real.exp (lnzZ 2) * kSim pEx 1 1 psiZ lnzZ 1 ^ pEx.alpha +
            (1 - pEx.delta) * kSim pEx 1 1 psiZ lnzZ 1 - cSim pEx 1 1 psiZ lnzZ 2) := by
  have hbad : kSim pEx 1 1 psiZ lnzZ 1 ≤ 0 := by
    show (traj pEx 1 1 psiZ lnzZ 1).2 ≤ 0
    rw [traj_pEx_one]
  exact ⟨hbad, simulation_continues_past_bad_capital pEx 1 1 psiZ lnzZ 1 hbad⟩

/-- The norm of psi - candidate at the concrete fitter and zero start. -/
theorem enorm_cfit : enorm 1 (fun j => psiZ j - cfit psiZ j) = 1 / 2 := by
  rw [enorm, Finset.sum_range_one]
  show Real.sqrt ((psiZ 0 - cfit psiZ 0) ^ 2) = 1 / 2
  rw [show (psiZ 0 - cfit psiZ 0 : ℝ) = -(1 / 2) from by norm_num [psiZ, cfit]]
  rw [neg_pow, neg_one_sq, one_mul, Real.sqrt_sq (by norm_num : (0 : ℝ) ≤ 1 / 2)]

/-- C3 counterexample: a converging pass does not install the candidate.
With the constant fitter 1/2, zero start and tolerance 1, delta = 1/2 < 1,
so the loop stops converged, but the reported coefficient entry is still 0
while the candidate entry is 1/2. -/
theorem converged_psi_not_candidate :
    (psiLoop 1 cfit (7 / 10) 1 5 psiZ).1 0 = 0 ∧
      (psiLoop 1 cfit (7 / 10) 1 5 psiZ).2 = true ∧ cfit psiZ 0 = 1 / 2 := by
  have hlt : enorm 1 (fun j => psiZ j - cfit psiZ j) < 1 := by
    rw [enorm_cfit]
    norm_num
  have hstep : psiStep 1 cfit (7 / 10) 1 psiZ = (psiZ, true) := by
    rw [psiStep, if_pos hlt]
  have hloop : psiLoop 1 cfit (7 / 10) 1 5 psiZ = (psiZ, true) := by
    simp [psiLoop, hstep]
  rw [hloop]
  exact ⟨rfl, rfl, rfl⟩

/-- C3 (amended): with delta the Euclidean norm of psi minus the fitted
candidate: a pass with delta < tolerance terminates the loop converged with
psi unchanged (the candidate is not installed); a pass with delta at least
the tolerance continues the loop on lrate * candidate + (1 - lrate) * psi;
and an exhausted iteration budget reports the last psi, unconverged. -/
theorem psiLoop_behavior (n : ℕ) (fit : (ℕ → ℝ) → ℕ → ℝ) (lrate psitol : ℝ)
    (psi : ℕ → ℝ) (m : ℕ) :
    psiLoop n fit lrate psitol 0 psi = (psi, false) ∧
      (enorm n (fun j => psi j - fit psi j) < psitol →
        psiLoop n fit lrate psitol (m + 1) psi = (psi, true)) ∧
      (¬ enorm n (fun j => psi j - fit psi j) < psitol →
        psiLoop n fit lrate psitol (m + 1) psi =
          psiLoop n fit lrate psitol m
            (fun j => lrate * fit psi j + (1 - lrate) * psi j)) := by
  refine ⟨rfl, ?_, ?_⟩
  · intro h
    simp [psiLoop, psiStep, if_pos h]
  · intro h
    simp [psiLoop, psiStep, if_neg h]

/-- C3 witness: the converging branch at the concrete fitter. -/
theorem psiLoop_behavior_witness :
    enorm 1 (fun j => psiZ j - cfit psiZ j) < 1 ∧
      psiLoop 1 cfit (7 / 10) 1 4 psiZ = (psiZ, true) := by
  have h : enorm 1 (fun j => psiZ j - cfit psiZ j) < 1 := by
    rw [enorm_cfit]
    norm_num
  exact ⟨h, (psiLoop_behavior 1 cfit (7 / 10) 1 psiZ 3).2.1 h⟩

end Theorems

end PEA
